import Mathlib

/-!
Verification of the computed-field evaluation pass of CosmicForge-WebApp.

The evaluation pass lives in `CreateEntityModal.handleSubmit`
(src/unnamed/part_000): it iterates over `template.schema` in declaration
order; for every field with `type === 'computed'` and a truthy `formula`
it builds a function whose body binds every current key of `finalData`
as a `const` and returns the formula expression, runs it, and stores the
result in `finalData[field.name]`; if running it throws, it stores the
string `ERROR: <message>` instead and calls
`setError('Error in formula for "<name>": <message>. Check the console for more details.')`.

The shallow embedding below models:
  * JS runtime values that can arise here as `JSVal` (integers, strings,
    booleans, and NaN; the model restricts JS numbers to integers, which
    covers every behaviour the claims exercise);
  * formulas as an expression AST `Expr` (integer literals, identifiers,
    `+`, `*`), evaluated left-to-right with JS coercion semantics:
    an identifier not bound in the context throws
    `<name> is not defined` (the V8 ReferenceError message), `+` is
    string concatenation as soon as one operand is a string, and `+`/`*`
    otherwise coerce operands to numbers, any non-numeric string
    coercing to NaN;
  * `finalData` as an association list written through `updateEnv`,
    which like JS property assignment overwrites an existing key in
    place and appends a new key at the end.

The comment-stripping regexes of the source are not modelled: an `Expr`
stands for the already-cleaned formula text.
-/

/-- A JavaScript runtime value as it can occur in the entity data payload.
Numbers are modelled as integers plus an explicit NaN. -/
inductive JSVal where
  | num (n : Int)
  | str (s : String)
  | bool (b : Bool)
  | nan
deriving DecidableEq

/-- A formula expression: the fragment of JavaScript expression syntax the
model covers (integer literals, bare identifiers, `+`, `*`). -/
inductive Expr where
  | num (n : Int)
  | ident (x : String)
  | add (a b : Expr)
  | mul (a b : Expr)
deriving DecidableEq

/-- The identifiers occurring in a formula, in evaluation (left-to-right)
order. -/
def identsOf : Expr → List String
  | .num _ => []
  | .ident x => [x]
  | .add a b => identsOf a ++ identsOf b
  | .mul a b => identsOf a ++ identsOf b

/-- JavaScript ToString on the modelled values. -/
def toJSString : JSVal → String
  | .num n => toString n
  | .str s => s
  | .bool b => if b then "true" else "false"
  | .nan => "NaN"

/-- A character JavaScript ToNumber skips as leading or trailing
whitespace. -/
def isJSSpace (c : Char) : Bool :=
  c = ' ' ∨ c = '\t' ∨ c = '\n' ∨ c = '\r'

/-- Strip leading and trailing whitespace from a character list. -/
def trimChars (l : List Char) : List Char :=
  ((l.dropWhile isJSSpace).reverse.dropWhile isJSSpace).reverse

/-- The value of a decimal digit character, if it is one. -/
def digitVal? (c : Char) : Option Nat :=
  if '0' ≤ c ∧ c ≤ '9' then some (c.toNat - '0'.toNat) else none

/-- Read a non-empty string of decimal digits as a natural number. -/
def natOfDigits : List Char → Nat → Option Nat
  | [], acc => some acc
  | c :: cs, acc =>
    match digitVal? c with
    | some d => natOfDigits cs (acc * 10 + d)
    | none => none

/-- Read an optionally signed decimal integer literal (the whole list must
be consumed, and at least one digit must be present). -/
def parseJSInt : List Char → Option Int
  | [] => none
  | '-' :: cs => if cs = [] then none else (natOfDigits cs 0).map (fun n => -(n : Int))
  | '+' :: cs => if cs = [] then none else (natOfDigits cs 0).map (fun n => (n : Int))
  | cs => (natOfDigits cs 0).map (fun n => (n : Int))

/-- JavaScript ToNumber on a string (restricted to integers): whitespace-only
gives 0, an integer literal gives its value, anything else NaN (`none`). -/
def jsStringToNumber (s : String) : Option Int :=
  match trimChars s.data with
  | [] => some 0
  | cs => parseJSInt cs

/-- JavaScript ToNumber on the modelled values; `none` stands for NaN. -/
def toNumber : JSVal → Option Int
  | .num n => some n
  | .bool b => some (if b then 1 else 0)
  | .nan => none
  | .str s => jsStringToNumber s

/-- JavaScript `+`: string concatenation if either operand is a string,
numeric addition otherwise (NaN-propagating). -/
def jsAdd : JSVal → JSVal → JSVal
  | .str s, v => .str (s ++ toJSString v)
  | v, .str s => .str (toJSString v ++ s)
  | a, b =>
    match toNumber a, toNumber b with
    | some x, some y => .num (x + y)
    | _, _ => .nan

/-- JavaScript `*`: both operands coerced to numbers, NaN-propagating. -/
def jsMul (a b : JSVal) : JSVal :=
  match toNumber a, toNumber b with
  | some x, some y => .num (x * y)
  | _, _ => .nan

/-- The `finalData` object: an association list from field name to value. -/
def Env : Type := List (String × JSVal)

instance : DecidableEq Env := by
  unfold Env
  infer_instance

/-- Property read on `finalData` (first matching key). -/
def lookupEnv : Env → String → Option JSVal
  | [], _ => none
  | (k', v) :: rest, k => if k' = k then some v else lookupEnv rest k

/-- Property assignment on `finalData`: overwrite an existing key in place,
append a new key at the end (JS object insertion-order semantics). -/
def updateEnv : Env → String → JSVal → Env
  | [], k, v => [(k, v)]
  | (k', v') :: rest, k, v =>
    if k' = k then (k, v) :: rest else (k', v') :: updateEnv rest k v

/-- Evaluating a formula against the context built from `finalData`:
identifiers resolve against the context (every key is bound as a `const`);
an unbound identifier throws a ReferenceError whose message is
`<name> is not defined`; subexpressions are evaluated left to right and
exceptions propagate. -/
def evalExpr (env : Env) : Expr → Except String JSVal
  | .num n => .ok (.num n)
  | .ident x =>
    match lookupEnv env x with
    | some v => .ok v
    | none => .error (x ++ " is not defined")
  | .add a b =>
    match evalExpr env a with
    | .error m => .error m
    | .ok va =>
      match evalExpr env b with
      | .error m => .error m
      | .ok vb => .ok (jsAdd va vb)
  | .mul a b =>
    match evalExpr env a with
    | .error m => .error m
    | .ok va =>
      match evalExpr env b with
      | .error m => .error m
      | .ok vb => .ok (jsMul va vb)

/-- One entry of `template.schema` as the evaluation pass reads it:
a name, a type string, and (for computed fields) a formula.
`formula = none` models an absent or empty (falsy) formula. -/
structure SchemaField where
  name : String
  type : String
  formula : Option Expr
deriving DecidableEq

/-- One iteration of the `template.schema.forEach` loop of
`CreateEntityModal.handleSubmit`, acting on the pair of `finalData` and the
React `error` banner (set by `setError` in the catch branch, last write
wins): a field with `type === 'computed'` and a truthy formula is
evaluated against the current `finalData`; on success the result is
stored under the field's name; on an exception the string
`ERROR: <message>` is stored instead and the banner is set. -/
def computeFieldStep (acc : Env × Option String) (f : SchemaField) :
    Env × Option String :=
  if f.type = "computed" then
    match f.formula with
    | some e =>
      match evalExpr acc.1 e with
      | .ok v => (updateEnv acc.1 f.name v, acc.2)
      | .error m =>
        (updateEnv acc.1 f.name (.str ("ERROR: " ++ m)),
          some ("Error in formula for \"" ++ f.name ++ "\": " ++ m ++
            ". Check the console for more details."))
    | none => acc
  else acc

/-- The computed-field evaluation pass of `CreateEntityModal.handleSubmit`:
fold the loop body over the schema in declaration order, starting from the
clone of `formData` and a clear error banner. Returns the final
`finalData` (the entity `data` payload) and the final error banner. -/
def evaluateComputedFields (schema : List SchemaField) (formData : Env) :
    Env × Option String :=
  schema.foldl computeFieldStep (formData, none)

/-- The entity `data` payload produced by the evaluation pass. -/
def evalPass (schema : List SchemaField) (formData : Env) : Env :=
  (evaluateComputedFields schema formData).1

/-- The data payload written for a field once its formula has been run:
the computed value on success, the string `ERROR: <message>` on failure. -/
def resultVal : Except String JSVal → JSVal
  | .ok v => v
  | .error m => .str ("ERROR: " ++ m)

/-- The data component of one loop iteration (the effect of
`computeFieldStep` on `finalData`, forgetting the error banner). -/
def stepData (d : Env) (f : SchemaField) : Env :=
  if f.type = "computed" then
    match f.formula with
    | some e => updateEnv d f.name (resultVal (evalExpr d e))
    | none => d
  else d

/-- The data payload of the pass, as a plain fold of `stepData`. -/
def evalData (schema : List SchemaField) (formData : Env) : Env :=
  schema.foldl stepData formData

/-- Names of the fields the loop writes to: computed fields carrying a
formula. -/
def computedNames (s : List SchemaField) : List String :=
  (s.filter (fun f => f.type == "computed" && f.formula.isSome)).map
    SchemaField.name

/- ---------------------------------------------------------------------
Template creation (`CreateTemplateModal.handleSubmit`, lines 64-76):
the `cleanFields` map over the field rows of the form.
--------------------------------------------------------------------- -/

/-- A field row of the template form as `CreateTemplateModal` holds it:
`options` is the raw comma-separated text input, `formula` is `none`
until the formula editor has saved one (the JS property is `undefined`). -/
structure RawField where
  name : String
  type : String
  options : String
  formula : Option String
deriving DecidableEq

/-- A schema entry as built by the `cleanFields` map: `options` and
`formula` are JS properties added by conditional spread, so the outer
`Option` records whether the property is present at all (for `formula`
the inner `Option` keeps the possibly-undefined stored value). -/
structure CleanField where
  name : String
  type : String
  options : Option (List String)
  formula : Option (Option String)
deriving DecidableEq

/-- One entry of the `cleanFields` map of `CreateTemplateModal.handleSubmit`:
keep `name` and `type`; spread in `options` (split on commas and trimmed)
only for select/multiselect; spread in `formula` only for computed. -/
def cleanField (f : RawField) : CleanField :=
  { name := f.name
    type := f.type
    options :=
      if f.type = "select" ∨ f.type = "multiselect" then
        some ((f.options.splitOn ",").map String.trim)
      else none
    formula := if f.type = "computed" then some f.formula else none }

/-- The `schema` array sent in the template-creation payload. -/
def cleanFields (fs : List RawField) : List CleanField :=
  fs.map cleanField

/- ---------------------------------------------------------------------
Basic lemmas about the environment operations.
--------------------------------------------------------------------- -/

theorem lookupEnv_updateEnv_self (l : Env) (k : String) (v : JSVal) :
    lookupEnv (updateEnv l k v) k = some v := by
  induction l with
  | nil => simp [updateEnv, lookupEnv]
  | cons p rest ih =>
    obtain ⟨k', v'⟩ := p
    by_cases h : k' = k
    · simp [updateEnv, h, lookupEnv]
    · simp [updateEnv, h, lookupEnv, ih]

theorem lookupEnv_updateEnv_ne (l : Env) (k k' : String) (v : JSVal)
    (h : k ≠ k') : lookupEnv (updateEnv l k v) k' = lookupEnv l k' := by
  induction l with
  | nil => simp [updateEnv, lookupEnv, h]
  | cons p rest ih =>
    obtain ⟨k'', v''⟩ := p
    by_cases h2 : k'' = k
    · subst h2
      simp [updateEnv, lookupEnv, h]
    · simp [updateEnv, h2, lookupEnv, ih]

theorem lookupEnv_updateEnv_isSome (l : Env) (k k' : String) (v : JSVal)
    (h : (lookupEnv l k').isSome) :
    (lookupEnv (updateEnv l k v) k').isSome := by
  by_cases hk : k = k'
  · subst hk
    simp [lookupEnv_updateEnv_self]
  · rwa [lookupEnv_updateEnv_ne l k k' v hk]

/- ---------------------------------------------------------------------
Lemmas connecting `evaluateComputedFields` with the data-only fold.
--------------------------------------------------------------------- -/

theorem fst_computeFieldStep (d : Env) (b : Option String)
    (f : SchemaField) : (computeFieldStep (d, b) f).1 = stepData d f := by
  unfold computeFieldStep stepData resultVal
  by_cases h : f.type = "computed"
  · simp only [h, if_true]
    cases f.formula with
    | none => rfl
    | some e =>
      cases hev : evalExpr d e with
      | ok v => simp [hev]
      | error m => simp [hev]
  · simp [h]

theorem fst_foldl_computeFieldStep (s : List SchemaField) (d : Env)
    (b : Option String) :
    (s.foldl computeFieldStep (d, b)).1 = evalData s d := by
  induction s generalizing d b with
  | nil => simp [evalData]
  | cons f rest ih =>
    simp only [List.foldl_cons, evalData]
    have h1 : computeFieldStep (d, b) f =
        ((computeFieldStep (d, b) f).1, (computeFieldStep (d, b) f).2) := rfl
    rw [h1, fst_computeFieldStep]
    exact ih (stepData d f) (computeFieldStep (d, b) f).2

theorem evalPass_eq_evalData (s : List SchemaField) (d : Env) :
    evalPass s d = evalData s d := by
  unfold evalPass evaluateComputedFields
  exact fst_foldl_computeFieldStep s d none

theorem evalData_append (s t : List SchemaField) (d : Env) :
    evalData (s ++ t) d = evalData t (evalData s d) := by
  unfold evalData
  exact List.foldl_append stepData d s t

theorem stepData_of_computed (d : Env) (f : SchemaField) (e : Expr)
    (h1 : f.type = "computed") (h2 : f.formula = some e) :
    stepData d f = updateEnv d f.name (resultVal (evalExpr d e)) := by
  simp [stepData, h1, h2]

theorem stepData_of_skip (d : Env) (f : SchemaField)
    (h : ¬(f.type = "computed" ∧ f.formula.isSome)) : stepData d f = d := by
  unfold stepData
  by_cases h1 : f.type = "computed"
  · cases h2 : f.formula with
    | none => simp [h1]
    | some e =>
      exact absurd ⟨h1, by simp [h2]⟩ h
  · simp [h1]

/- ---------------------------------------------------------------------
Lemmas about formula evaluation.
--------------------------------------------------------------------- -/

theorem evalExpr_congr (e : Expr) (env1 env2 : Env)
    (h : ∀ x ∈ identsOf e, lookupEnv env1 x = lookupEnv env2 x) :
    evalExpr env1 e = evalExpr env2 e := by
  induction e with
  | num n => rfl
  | ident x =>
    have hx : lookupEnv env1 x = lookupEnv env2 x := h x (by simp [identsOf])
    simp [evalExpr, hx]
  | add a b iha ihb =>
    have ha : evalExpr env1 a = evalExpr env2 a :=
      iha (fun x hx => h x (by simp [identsOf, hx]))
    have hb : evalExpr env1 b = evalExpr env2 b :=
      ihb (fun x hx => h x (by simp [identsOf, hx]))
    simp [evalExpr, ha, hb]
  | mul a b iha ihb =>
    have ha : evalExpr env1 a = evalExpr env2 a :=
      iha (fun x hx => h x (by simp [identsOf, hx]))
    have hb : evalExpr env1 b = evalExpr env2 b :=
      ihb (fun x hx => h x (by simp [identsOf, hx]))
    simp [evalExpr, ha, hb]

/-- The only exception a formula can throw in this fragment is a
ReferenceError for some unbound identifier occurring in it. -/
theorem evalExpr_error_shape (e : Expr) (env : Env) (m : String)
    (h : evalExpr env e = .error m) :
    ∃ x ∈ identsOf e, lookupEnv env x = none ∧ m = x ++ " is not defined" := by
  induction e with
  | num n => simp [evalExpr] at h
  | ident x =>
    cases hx : lookupEnv env x with
    | some v => simp [evalExpr, hx] at h
    | none =>
      simp [evalExpr, hx] at h
      exact ⟨x, by simp [identsOf], hx, h.symm⟩
  | add a b iha ihb =>
    cases ha : evalExpr env a with
    | error ma =>
      simp [evalExpr, ha] at h
      obtain ⟨x, hx, hn, hm⟩ := iha (h ▸ ha)
      exact ⟨x, by simp [identsOf, hx], hn, hm⟩
    | ok va =>
      cases hb : evalExpr env b with
      | error mb =>
        simp [evalExpr, ha, hb] at h
        obtain ⟨x, hx, hn, hm⟩ := ihb (h ▸ hb)
        exact ⟨x, by simp [identsOf, hx], hn, hm⟩
      | ok vb => simp [evalExpr, ha, hb] at h
  | mul a b iha ihb =>
    cases ha : evalExpr env a with
    | error ma =>
      simp [evalExpr, ha] at h
      obtain ⟨x, hx, hn, hm⟩ := iha (h ▸ ha)
      exact ⟨x, by simp [identsOf, hx], hn, hm⟩
    | ok va =>
      cases hb : evalExpr env b with
      | error mb =>
        simp [evalExpr, ha, hb] at h
        obtain ⟨x, hx, hn, hm⟩ := ihb (h ▸ hb)
        exact ⟨x, by simp [identsOf, hx], hn, hm⟩
      | ok vb => simp [evalExpr, ha, hb] at h

/-- A formula that mentions an unbound identifier always throws. -/
theorem evalExpr_error_of_unbound (e : Expr) (env : Env) (x : String)
    (hx : x ∈ identsOf e) (hn : lookupEnv env x = none) :
    ∃ m, evalExpr env e = .error m := by
  induction e with
  | num n => simp [identsOf] at hx
  | ident y =>
    simp [identsOf] at hx
    subst hx
    exact ⟨x ++ " is not defined", by simp [evalExpr, hn]⟩
  | add a b iha ihb =>
    simp [identsOf] at hx
    cases hx with
    | inl hxa =>
      obtain ⟨m, hm⟩ := iha hxa
      exact ⟨m, by simp [evalExpr, hm]⟩
    | inr hxb =>
      cases ha : evalExpr env a with
      | error ma => exact ⟨ma, by simp [evalExpr, ha]⟩
      | ok va =>
        obtain ⟨m, hm⟩ := ihb hxb
        exact ⟨m, by simp [evalExpr, ha, hm]⟩
  | mul a b iha ihb =>
    simp [identsOf] at hx
    cases hx with
    | inl hxa =>
      obtain ⟨m, hm⟩ := iha hxa
      exact ⟨m, by simp [evalExpr, hm]⟩
    | inr hxb =>
      cases ha : evalExpr env a with
      | error ma => exact ⟨ma, by simp [evalExpr, ha]⟩
      | ok va =>
        obtain ⟨m, hm⟩ := ihb hxb
        exact ⟨m, by simp [evalExpr, ha, hm]⟩

/-- A formula whose only unbound identifier is `x` throws the
ReferenceError naming `x`. -/
theorem evalExpr_error_unique_unbound (e : Expr) (env : Env) (x : String)
    (hx : x ∈ identsOf e) (hn : lookupEnv env x = none)
    (hothers : ∀ y ∈ identsOf e, y ≠ x → (lookupEnv env y).isSome) :
    evalExpr env e = .error (x ++ " is not defined") := by
  obtain ⟨m, hm⟩ := evalExpr_error_of_unbound e env x hx hn
  obtain ⟨y, hy, hyn, hym⟩ := evalExpr_error_shape e env m hm
  have hyx : y = x := by
    by_contra hne
    have := hothers y hy hne
    rw [hyn] at this
    simp at this
  rw [hm, hym, hyx]

/- ---------------------------------------------------------------------
Frame lemmas for the pass.
--------------------------------------------------------------------- -/

/-- A key that is not the name of some computed-with-formula field of the
remaining schema is never written by the pass. -/
theorem lookupEnv_evalData_frame (s : List SchemaField) (d : Env)
    (k : String) (h : k ∉ computedNames s) :
    lookupEnv (evalData s d) k = lookupEnv d k := by
  induction s generalizing d with
  | nil => rfl
  | cons f rest ih =>
    have hrest : k ∉ computedNames rest := by
      intro hk
      refine h ?_
      unfold computedNames at hk ⊢
      simp only [List.filter_cons]
      by_cases hf : (f.type == "computed" && f.formula.isSome) = true
      · simp [hf]
        right
        simpa [computedNames] using hk
      · simp [hf]
        simpa [computedNames] using hk
    have hstep : lookupEnv (stepData d f) k = lookupEnv d k := by
      by_cases hf : f.type = "computed" ∧ f.formula.isSome
      · obtain ⟨hf1, hf2⟩ := hf
        obtain ⟨e, he⟩ := Option.isSome_iff_exists.mp hf2
        rw [stepData_of_computed d f e hf1 he]
        have hkname : f.name ≠ k := by
          intro hkk
          refine h ?_
          unfold computedNames
          simp only [List.filter_cons]
          have : (f.type == "computed" && f.formula.isSome) = true := by
            simp [hf1, hf2]
          simp [this, hkk]
        exact lookupEnv_updateEnv_ne d f.name k _ hkname
      · rw [stepData_of_skip d f hf]
    calc lookupEnv (evalData (f :: rest) d) k
        = lookupEnv (evalData rest (stepData d f)) k := rfl
      _ = lookupEnv (stepData d f) k := ih (stepData d f) hrest
      _ = lookupEnv d k := hstep

/-- Once a key is present in `finalData` it stays present through the rest
of the pass. -/
theorem lookupEnv_evalData_isSome_mono (s : List SchemaField) (d : Env)
    (k : String) (h : (lookupEnv d k).isSome) :
    (lookupEnv (evalData s d) k).isSome := by
  induction s generalizing d with
  | nil => exact h
  | cons f rest ih =>
    have hstep : (lookupEnv (stepData d f) k).isSome := by
      by_cases hf : f.type = "computed" ∧ f.formula.isSome
      · obtain ⟨hf1, hf2⟩ := hf
        obtain ⟨e, he⟩ := Option.isSome_iff_exists.mp hf2
        rw [stepData_of_computed d f e hf1 he]
        exact lookupEnv_updateEnv_isSome d f.name k _ h
      · rw [stepData_of_skip d f hf]
        exact h
    exact ih (stepData d f) hstep

/-- Every computed field carrying a formula ends up with an entry in the
data payload (helper for the entry-coverage claim). -/
theorem lookupEnv_evalData_isSome_of_mem (s : List SchemaField) (d : Env)
    (f : SchemaField) (e : Expr) (hmem : f ∈ s) (h1 : f.type = "computed")
    (h2 : f.formula = some e) :
    (lookupEnv (evalData s d) f.name).isSome := by
  induction s generalizing d with
  | nil => simp at hmem
  | cons g rest ih =>
    rcases List.mem_cons.mp hmem with hfg | hfr
    · subst hfg
      have hstep : stepData d f = updateEnv d f.name (resultVal (evalExpr d e)) :=
        stepData_of_computed d f e h1 h2
      have hsome : (lookupEnv (stepData d f) f.name).isSome := by
        rw [hstep, lookupEnv_updateEnv_self]
        rfl
      exact lookupEnv_evalData_isSome_mono rest (stepData d f) f.name hsome
    · exact ih (stepData d g) hfr

/-- Membership in `computedNames`. -/
theorem mem_computedNames (s : List SchemaField) (f : SchemaField)
    (hmem : f ∈ s) (h1 : f.type = "computed") (h2 : f.formula.isSome) :
    f.name ∈ computedNames s := by
  unfold computedNames
  refine List.mem_map_of_mem SchemaField.name ?_
  rw [List.mem_filter]
  exact ⟨hmem, by simp [h1, h2]⟩

/-- Agreement lemma: given a set `bad` of names that contains every name
either environment may disagree on and that is closed under formula
reference (a computed field whose formula mentions a bad name has a bad
name itself), running the pass preserves agreement outside `bad`. -/
theorem evalData_agree (post : List SchemaField) (A B : Env)
    (bad : List String)
    (hcl : ∀ g ∈ post, g.type = "computed" → ∀ e, g.formula = some e →
      (∃ j ∈ identsOf e, j ∈ bad) → g.name ∈ bad)
    (hAB : ∀ k, k ∉ bad → lookupEnv A k = lookupEnv B k) :
    ∀ k, k ∉ bad →
      lookupEnv (evalData post A) k = lookupEnv (evalData post B) k := by
  induction post generalizing A B with
  | nil => exact hAB
  | cons g rest ih =>
    have hclrest : ∀ g' ∈ rest, g'.type = "computed" → ∀ e,
        g'.formula = some e → (∃ j ∈ identsOf e, j ∈ bad) →
        g'.name ∈ bad :=
      fun g' hg' => hcl g' (List.mem_cons_of_mem g hg')
    by_cases hg : g.type = "computed" ∧ g.formula.isSome
    · obtain ⟨hg1, hg2⟩ := hg
      obtain ⟨e, he⟩ := Option.isSome_iff_exists.mp hg2
      have hA : stepData A g = updateEnv A g.name (resultVal (evalExpr A e)) :=
        stepData_of_computed A g e hg1 he
      have hB : stepData B g = updateEnv B g.name (resultVal (evalExpr B e)) :=
        stepData_of_computed B g e hg1 he
      by_cases hbadid : ∃ j ∈ identsOf e, j ∈ bad
      · have hname : g.name ∈ bad := hcl g (List.mem_cons_self g rest) hg1 e he hbadid
        have hAB' : ∀ k, k ∉ bad →
            lookupEnv (stepData A g) k = lookupEnv (stepData B g) k := by
          intro k hk
          have hkname : g.name ≠ k := fun hkk => hk (hkk ▸ hname)
          rw [hA, hB, lookupEnv_updateEnv_ne A g.name k _ hkname,
            lookupEnv_updateEnv_ne B g.name k _ hkname]
          exact hAB k hk
        exact ih (stepData A g) (stepData B g) hclrest hAB'
      · have hid : ∀ j ∈ identsOf e, lookupEnv A j = lookupEnv B j := by
          intro j hj
          refine hAB j ?_
          intro hjb
          exact hbadid ⟨j, hj, hjb⟩
        have hev : evalExpr A e = evalExpr B e := evalExpr_congr e A B hid
        have hAB' : ∀ k, k ∉ bad →
            lookupEnv (stepData A g) k = lookupEnv (stepData B g) k := by
          intro k hk
          rw [hA, hB, hev]
          by_cases hkname : g.name = k
          · subst hkname
            rw [lookupEnv_updateEnv_self, lookupEnv_updateEnv_self]
          · rw [lookupEnv_updateEnv_ne A g.name k _ hkname,
              lookupEnv_updateEnv_ne B g.name k _ hkname]
            exact hAB k hk
        exact ih (stepData A g) (stepData B g) hclrest hAB'
    · have hA : stepData A g = A := stepData_of_skip A g hg
      have hB : stepData B g = B := stepData_of_skip B g hg
      have : ∀ k, k ∉ bad →
          lookupEnv (stepData A g) k = lookupEnv (stepData B g) k := by
        intro k hk
        rw [hA, hB]
        exact hAB k hk
      exact ih (stepData A g) (stepData B g) hclrest this

/- ---------------------------------------------------------------------
Machinery for the order-independence claim: the formula of the first
computed-with-formula field of a given name.
--------------------------------------------------------------------- -/

/-- The formula of the first computed-with-formula schema field named `n`,
if any. -/
def findCF (s : List SchemaField) (n : String) : Option Expr :=
  (s.find? (fun f => f.name == n && (f.type == "computed" && f.formula.isSome))).bind
    SchemaField.formula

theorem findCF_some_elim (s : List SchemaField) (n : String) (e : Expr)
    (h : findCF s n = some e) :
    ∃ g ∈ s, g.name = n ∧ g.type = "computed" ∧ g.formula = some e := by
  unfold findCF at h
  cases hfind : s.find?
      (fun f => f.name == n && (f.type == "computed" && f.formula.isSome)) with
  | none => rw [hfind] at h; simp at h
  | some g =>
    rw [hfind] at h
    simp at h
    have hmem := List.mem_of_find?_eq_some hfind
    have hpred := List.find?_some hfind
    simp at hpred
    exact ⟨g, hmem, hpred.1, hpred.2.1, h⟩

theorem findCF_eq_none_iff (s : List SchemaField) (n : String) :
    findCF s n = none ↔
      ∀ g ∈ s, ¬(g.name = n ∧ g.type = "computed" ∧ g.formula.isSome) := by
  unfold findCF
  constructor
  · intro h g hg hcontra
    obtain ⟨h1, h2, h3⟩ := hcontra
    cases hfind : s.find?
        (fun f => f.name == n && (f.type == "computed" && f.formula.isSome)) with
    | none =>
      rw [List.find?_eq_none] at hfind
      exact hfind g hg (by simp [h1, h2, h3])
    | some g' =>
      rw [hfind] at h
      have hpred := List.find?_some hfind
      simp at hpred
      obtain ⟨e', he'⟩ := Option.isSome_iff_exists.mp hpred.2.2
      simp [he'] at h
  · intro h
    have : s.find?
        (fun f => f.name == n && (f.type == "computed" && f.formula.isSome)) = none := by
      rw [List.find?_eq_none]
      intro g hg
      simp only [Bool.and_eq_true, beq_iff_eq, not_and]
      intro h1 h2
      have := h g hg
      simp [h1, h2] at this
      simp [this]
    simp [this]

/-- Over schemas whose computed-field names are pairwise distinct,
`findCF` is invariant under permutation. -/
theorem findCF_perm (s1 s2 : List SchemaField) (n : String)
    (hperm : s1.Perm s2) (hnd : (computedNames s1).Nodup) :
    findCF s1 n = findCF s2 n := by
  cases h1 : findCF s1 n with
  | none =>
    cases h2 : findCF s2 n with
    | none => rfl
    | some e2 =>
      obtain ⟨g, hg, hn, ht, hf⟩ := findCF_some_elim s2 n e2 h2
      have := (findCF_eq_none_iff s1 n).mp h1 g (hperm.mem_iff.mpr hg)
      exact absurd ⟨hn, ht, by simp [hf]⟩ this
  | some e1 =>
    cases h2 : findCF s2 n with
    | none =>
      obtain ⟨g, hg, hn, ht, hf⟩ := findCF_some_elim s1 n e1 h1
      have := (findCF_eq_none_iff s2 n).mp h2 g (hperm.mem_iff.mp hg)
      exact absurd ⟨hn, ht, by simp [hf]⟩ this
    | some e2 =>
      obtain ⟨g1, hg1, hn1, ht1, hf1⟩ := findCF_some_elim s1 n e1 h1
      obtain ⟨g2, hg2, hn2, ht2, hf2⟩ := findCF_some_elim s2 n e2 h2
      have hg2' : g2 ∈ s1 := hperm.mem_iff.mpr hg2
      have hmf1 : g1 ∈ s1.filter (fun f => f.type == "computed" && f.formula.isSome) := by
        rw [List.mem_filter]
        exact ⟨hg1, by simp [ht1, hf1]⟩
      have hmf2 : g2 ∈ s1.filter (fun f => f.type == "computed" && f.formula.isSome) := by
        rw [List.mem_filter]
        exact ⟨hg2', by simp [ht2, hf2]⟩
      have hnd2 : (List.map SchemaField.name
          (s1.filter (fun f => f.type == "computed" && f.formula.isSome))).Nodup := hnd
      have heq : g1 = g2 :=
        List.inj_on_of_nodup_map hnd2 hmf1 hmf2 (by rw [hn1, hn2])
      rw [heq, hf2] at hf1
      simpa using hf1.symm

/-- Characterization of the data payload for schemas with unique computed
names whose computed formulas reference no name in `N` (a superset of the
computed names): the entry at any name is the input entry, unless the name
is a computed-with-formula field, whose formula is then evaluated directly
against the input data. -/
theorem evalData_char (N : List String) (s : List SchemaField) (d : Env)
    (hsub : ∀ f ∈ s, f.type = "computed" → f.formula.isSome → f.name ∈ N)
    (hdisj : ∀ f ∈ s, f.type = "computed" → ∀ e, f.formula = some e →
      ∀ x ∈ identsOf e, x ∉ N)
    (hnd : (computedNames s).Nodup) (n : String) :
    lookupEnv (evalData s d) n =
      (match findCF s n with
       | some e => some (resultVal (evalExpr d e))
       | none => lookupEnv d n) := by
  induction s generalizing d with
  | nil => rfl
  | cons f rest ih =>
    have hsubr : ∀ g ∈ rest, g.type = "computed" → g.formula.isSome → g.name ∈ N :=
      fun g hg => hsub g (List.mem_cons_of_mem f hg)
    have hdisjr : ∀ g ∈ rest, g.type = "computed" → ∀ e, g.formula = some e →
        ∀ x ∈ identsOf e, x ∉ N :=
      fun g hg => hdisj g (List.mem_cons_of_mem f hg)
    by_cases hf : f.type = "computed" ∧ f.formula.isSome
    · obtain ⟨hf1, hf2⟩ := hf
      obtain ⟨e, he⟩ := Option.isSome_iff_exists.mp hf2
      have hcn : computedNames (f :: rest) = f.name :: computedNames rest := by
        unfold computedNames
        rw [List.filter_cons_of_pos (by simp [hf1, hf2])]
        rfl
      rw [hcn] at hnd
      have hnotin : f.name ∉ computedNames rest := (List.nodup_cons.mp hnd).1
      have hndr : (computedNames rest).Nodup := (List.nodup_cons.mp hnd).2
      have hstep : stepData d f = updateEnv d f.name (resultVal (evalExpr d e)) :=
        stepData_of_computed d f e hf1 he
      have hchain : evalData (f :: rest) d = evalData rest (stepData d f) := rfl
      rw [hchain, hstep]
      set d' := updateEnv d f.name (resultVal (evalExpr d e)) with hd'
      have ihr := ih d' hsubr hdisjr hndr
      by_cases hname : f.name = n
      · subst hname
        have hfindc : findCF (f :: rest) f.name = some e := by
          unfold findCF
          rw [List.find?_cons_of_pos rest (by simp [hf1, he])]
          simp [he]
        rw [hfindc]
        cases hfr : findCF rest f.name with
        | some e' =>
          obtain ⟨g, hg, hgn, hgt, hgf⟩ := findCF_some_elim rest f.name e' hfr
          have : f.name ∈ computedNames rest := by
            have := mem_computedNames rest g hg hgt (by simp [hgf])
            rwa [hgn] at this
          exact absurd this hnotin
        | none =>
          rw [ihr, hfr]
          simp only [hd']
          rw [lookupEnv_updateEnv_self]
      · have hfindc : findCF (f :: rest) n = findCF rest n := by
          unfold findCF
          rw [List.find?_cons_of_neg rest (by simp [hname])]
        rw [hfindc, ihr]
        cases hfr : findCF rest n with
        | some e' =>
          obtain ⟨g, hg, hgn, hgt, hgf⟩ := findCF_some_elim rest n e' hfr
          have hcongr : evalExpr d' e' = evalExpr d e' := by
            refine evalExpr_congr e' d' d ?_
            intro x hx
            have hxN : x ∉ N := hdisjr g hg hgt e' hgf x hx
            have hfN : f.name ∈ N := hsub f (List.mem_cons_self f rest) hf1 hf2
            have hxf : f.name ≠ x := fun hxx => hxN (hxx ▸ hfN)
            simp only [hd']
            exact lookupEnv_updateEnv_ne d f.name x _ hxf
          simp only [hcongr]
        | none =>
          simp only [hd']
          rw [lookupEnv_updateEnv_ne d f.name n _ hname]
    · have hstep : stepData d f = d := stepData_of_skip d f hf
      have hchain : evalData (f :: rest) d = evalData rest (stepData d f) := rfl
      have hcn : computedNames (f :: rest) = computedNames rest := by
        unfold computedNames
        rw [List.filter_cons_of_neg (by simpa using hf)]
      rw [hcn] at hnd
      have hfindc : findCF (f :: rest) n = findCF rest n := by
        unfold findCF
        refine congrArg (Option.bind · SchemaField.formula) ?_
        refine List.find?_cons_of_neg rest ?_
        simp only [Bool.and_eq_true, beq_iff_eq, not_and]
        intro _ h1 h2
        exact hf ⟨h1, by simp [h2]⟩
      rw [hchain, hstep, hfindc]
      exact ih d hsubr hdisjr hnd

/-- Helper shared by the error-storage claims: a computed field whose
formula throws at its turn ends up with the string `ERROR: <message>` in
the payload, provided no later computed field reuses its name. -/
theorem lookupEnv_evalData_middle_error (d : Env) (pre : List SchemaField)
    (f : SchemaField) (post : List SchemaField) (e : Expr) (m : String)
    (h1 : f.type = "computed") (h2 : f.formula = some e)
    (herr : evalExpr (evalData pre d) e = .error m)
    (hpost : f.name ∉ computedNames post) :
    lookupEnv (evalData (pre ++ f :: post) d) f.name =
      some (.str ("ERROR: " ++ m)) := by
  have hsplit : pre ++ f :: post = (pre ++ [f]) ++ post := by simp
  rw [hsplit, evalData_append, evalData_append,
    lookupEnv_evalData_frame post _ f.name hpost]
  have hone : evalData [f] (evalData pre d) =
      updateEnv (evalData pre d) f.name (.str ("ERROR: " ++ m)) := by
    show stepData (evalData pre d) f = _
    rw [stepData_of_computed _ f e h1 h2, herr]
    rfl
  rw [hone, lookupEnv_updateEnv_self]

/- ---------------------------------------------------------------------
Claim theorems.
--------------------------------------------------------------------- -/

/-- C1: the evaluation pass never propagates an exception (it is a total
fold whose per-field catch stores an error string): every computed field
carrying a formula ends up with an entry in the final data payload, and a
failure in one field does not prevent the remaining computed fields from
being processed (the statement holds for every computed field of the
schema, wherever failures occur). -/
theorem c1_every_computed_field_has_entry (s : List SchemaField) (d : Env)
    (f : SchemaField) (e : Expr) (hmem : f ∈ s) (h1 : f.type = "computed")
    (h2 : f.formula = some e) :
    ∃ v, lookupEnv (evalPass s d) f.name = some v := by
  rw [evalPass_eq_evalData]
  exact Option.isSome_iff_exists.mp
    (lookupEnv_evalData_isSome_of_mem s d f e hmem h1 h2)

theorem c1_witness :
    ∃ v, lookupEnv (evalPass [⟨"a", "computed", some (.num 1)⟩] []) "a" =
      some v :=
  c1_every_computed_field_has_entry [⟨"a", "computed", some (.num 1)⟩] []
    ⟨"a", "computed", some (.num 1)⟩ (.num 1) (by simp) rfl rfl

/-- C2 counterexample: on the cyclic schema `x = y + 1`, `y = x + 1` the
code performs no cycle detection. `x` is evaluated first and throws a
plain ReferenceError (`y is not defined`), stored as an error string; `y`
is then evaluated against that stored string and SUCCEEDS by string
concatenation, storing `ERROR: y is not defined1`, so the two entries are
not a common cycle tag (they differ), `y`'s formula is evaluated, and the
only failure reported names `x` alone — contradicting the claimed
`CyclicFormulaError` tagging of every cycle member and the claim that no
cycle member is evaluated. -/
theorem c2_counterexample :
    evaluateComputedFields
      [⟨"x", "computed", some (.add (.ident "y") (.num 1))⟩,
       ⟨"y", "computed", some (.add (.ident "x") (.num 1))⟩] [] =
      ([("x", .str "ERROR: y is not defined"),
        ("y", .str "ERROR: y is not defined1")],
        some "Error in formula for \"x\": y is not defined. Check the console for more details.") ∧
    lookupEnv (evalPass
      [⟨"x", "computed", some (.add (.ident "y") (.num 1))⟩,
       ⟨"y", "computed", some (.add (.ident "x") (.num 1))⟩] []) "y" ≠
    lookupEnv (evalPass
      [⟨"x", "computed", some (.add (.ident "y") (.num 1))⟩,
       ⟨"y", "computed", some (.add (.ident "x") (.num 1))⟩] []) "x" := by
  constructor
  · decide
  · decide

/-- C2 (amended): there is no cycle detection; computed fields are
evaluated in declaration order. For the two-field cycle `x = y + 1`,
`y = x + 1`, the first field throws a ReferenceError for its not yet
defined dependency and is stored as `ERROR: y is not defined`; the second
field is evaluated against that stored error string and succeeds by
string concatenation, storing `ERROR: y is not defined1`; only the first
field's failure is reported. -/
theorem c2_amended_cycle_behaviour :
    lookupEnv (evalPass
      [⟨"x", "computed", some (.add (.ident "y") (.num 1))⟩,
       ⟨"y", "computed", some (.add (.ident "x") (.num 1))⟩] []) "x" =
      some (.str "ERROR: y is not defined") ∧
    lookupEnv (evalPass
      [⟨"x", "computed", some (.add (.ident "y") (.num 1))⟩,
       ⟨"y", "computed", some (.add (.ident "x") (.num 1))⟩] []) "y" =
      some (.str "ERROR: y is not defined1") ∧
    (evaluateComputedFields
      [⟨"x", "computed", some (.add (.ident "y") (.num 1))⟩,
       ⟨"y", "computed", some (.add (.ident "x") (.num 1))⟩] []).2 =
      some "Error in formula for \"x\": y is not defined. Check the console for more details." := by
  refine ⟨by decide, by decide, by decide⟩

/-- C3 counterexample: permuting the schema changes the result when a
computed field references a computed field declared after it. With
`x = y` and `y = 2`, declaring `x` first makes `x` fail (ReferenceError,
stored as an error string) while declaring `y` first makes `x` evaluate
to 2. -/
theorem c3_counterexample :
    ([⟨"x", "computed", some (.ident "y")⟩,
      ⟨"y", "computed", some (.num 2)⟩] : List SchemaField).Perm
      [⟨"y", "computed", some (.num 2)⟩,
       ⟨"x", "computed", some (.ident "y")⟩] ∧
    lookupEnv (evalPass
      [⟨"x", "computed", some (.ident "y")⟩,
       ⟨"y", "computed", some (.num 2)⟩] []) "x" ≠
    lookupEnv (evalPass
      [⟨"y", "computed", some (.num 2)⟩,
       ⟨"x", "computed", some (.ident "y")⟩] []) "x" := by
  constructor
  · exact List.Perm.swap _ _ _
  · decide

/-- C3 (amended): evaluation order is declaration order, so permuting the
schema can change the result only through computed-to-computed
references. For schemas whose computed fields have pairwise distinct
names and whose computed formulas reference no computed field's name,
permuting the schema leaves the final data payload unchanged as a
name-to-value mapping. -/
theorem c3_order_independence_without_computed_refs
    (s1 s2 : List SchemaField) (d : Env) (n : String)
    (hperm : s1.Perm s2) (hnd : (computedNames s1).Nodup)
    (hdisj : ∀ f ∈ s1, f.type = "computed" → ∀ e, f.formula = some e →
      ∀ x ∈ identsOf e, x ∉ computedNames s1) :
    lookupEnv (evalPass s1 d) n = lookupEnv (evalPass s2 d) n := by
  rw [evalPass_eq_evalData, evalPass_eq_evalData]
  have hchar1 := evalData_char (computedNames s1) s1 d
    (fun f hf h1 h2 => mem_computedNames s1 f hf h1 h2) hdisj hnd n
  have hnd2 : (computedNames s2).Nodup := by
    have hp : (computedNames s1).Perm (computedNames s2) :=
      (hperm.filter _).map _
    exact hp.nodup hnd
  have hsub2 : ∀ f ∈ s2, f.type = "computed" → f.formula.isSome →
      f.name ∈ computedNames s1 :=
    fun f hf h1 h2 => mem_computedNames s1 f (hperm.mem_iff.mpr hf) h1 h2
  have hdisj2 : ∀ f ∈ s2, f.type = "computed" → ∀ e, f.formula = some e →
      ∀ x ∈ identsOf e, x ∉ computedNames s1 :=
    fun f hf => hdisj f (hperm.mem_iff.mpr hf)
  have hchar2 := evalData_char (computedNames s1) s2 d hsub2 hdisj2 hnd2 n
  rw [hchar1, hchar2, findCF_perm s1 s2 n hperm hnd]

theorem c3_witness :
    lookupEnv (evalPass
      [⟨"p", "computed", some (.num 1)⟩, ⟨"q", "number", none⟩] []) "p" =
    lookupEnv (evalPass
      [⟨"q", "number", none⟩, ⟨"p", "computed", some (.num 1)⟩] []) "p" :=
  c3_order_independence_without_computed_refs
    [⟨"p", "computed", some (.num 1)⟩, ⟨"q", "number", none⟩]
    [⟨"q", "number", none⟩, ⟨"p", "computed", some (.num 1)⟩] [] "p"
    (List.Perm.swap _ _ _) (by decide) (by decide)

/-- C4 counterexample: with `x = w` (which fails: `w` is unbound) and
`z = x * 2`, the pass does not mark `z` with any upstream-failure tag and
does attempt the arithmetic: `x`'s stored error string is coerced to NaN
by `*`, `z` is stored as NaN (a non-error value, not an error-string
marker), and the only failure reported names `x`. -/
theorem c4_counterexample :
    evaluateComputedFields
      [⟨"x", "computed", some (.ident "w")⟩,
       ⟨"z", "computed", some (.mul (.ident "x") (.num 2))⟩] [] =
      ([("x", .str "ERROR: w is not defined"), ("z", .nan)],
        some "Error in formula for \"x\": w is not defined. Check the console for more details.") ∧
    (∀ m : String,
      lookupEnv (evalPass
        [⟨"x", "computed", some (.ident "w")⟩,
         ⟨"z", "computed", some (.mul (.ident "x") (.num 2))⟩] []) "z" ≠
      some (.str m)) := by
  constructor
  · decide
  · intro m
    have hz : lookupEnv (evalPass
        [⟨"x", "computed", some (.ident "w")⟩,
         ⟨"z", "computed", some (.mul (.ident "x") (.num 2))⟩] []) "z" =
        some .nan := by decide
    rw [hz]
    simp

/-- C4 (amended): a computed field depending on a failed field is not
specially marked and its formula IS evaluated: the failed dependency's
stored error string participates in the arithmetic as an operand. For
`z = x * 2` with failed `x`, the multiplication coerces the error string
to NaN, `z` is stored as NaN with no failure reported for `z` (the only
reported failure is `x`'s own). -/
theorem c4_amended_upstream_behaviour :
    lookupEnv (evalPass
      [⟨"x", "computed", some (.ident "w")⟩,
       ⟨"z", "computed", some (.mul (.ident "x") (.num 2))⟩] []) "z" =
      some .nan ∧
    (evaluateComputedFields
      [⟨"x", "computed", some (.ident "w")⟩,
       ⟨"z", "computed", some (.mul (.ident "x") (.num 2))⟩] []).2 =
      some "Error in formula for \"x\": w is not defined. Check the console for more details." := by
  refine ⟨by decide, by decide⟩

/-- C5: a computed field whose formula references an identifier that is
bound neither in the supplied values nor as an already-computed sibling
(and whose other identifiers are all bound) ends up with the error entry
`ERROR: <identifier> is not defined` — the entry is keyed by the field
and its message names the identifier; and (partial-failure semantics) for
any name set `bad` containing the failing field's name and closed under
formula reference, every field outside `bad` — i.e. every field not
depending directly or transitively on the failing field — has exactly the
entry it would have had if the failing field were absent from the
schema. -/
theorem c5_unknown_identifier_isolated_failure :
    (∀ (d : Env) (pre : List SchemaField) (f : SchemaField)
      (post : List SchemaField) (e : Expr) (i : String),
      f.type = "computed" → f.formula = some e →
      i ∈ identsOf e → lookupEnv (evalData pre d) i = none →
      (∀ j ∈ identsOf e, j ≠ i → (lookupEnv (evalData pre d) j).isSome) →
      f.name ∉ computedNames post →
      lookupEnv (evalPass (pre ++ f :: post) d) f.name =
        some (.str ("ERROR: " ++ (i ++ " is not defined")))) ∧
    (∀ (d : Env) (pre : List SchemaField) (f : SchemaField)
      (post : List SchemaField) (bad : List String),
      f.name ∈ bad →
      (∀ g ∈ post, g.type = "computed" → ∀ e, g.formula = some e →
        (∃ j ∈ identsOf e, j ∈ bad) → g.name ∈ bad) →
      ∀ k, k ∉ bad →
      lookupEnv (evalPass (pre ++ f :: post) d) k =
        lookupEnv (evalPass (pre ++ post) d) k) := by
  constructor
  · intro d pre f post e i h1 h2 hi hnone hothers hpost
    rw [evalPass_eq_evalData]
    have herr : evalExpr (evalData pre d) e = .error (i ++ " is not defined") :=
      evalExpr_error_unique_unbound e (evalData pre d) i hi hnone hothers
    exact lookupEnv_evalData_middle_error d pre f post e
      (i ++ " is not defined") h1 h2 herr hpost
  · intro d pre f post bad hfbad hcl k hk
    rw [evalPass_eq_evalData, evalPass_eq_evalData, evalData_append,
      evalData_append]
    have hfstep : ∀ k', k' ∉ bad →
        lookupEnv (evalData (f :: post) (evalData pre d)) k' =
        lookupEnv (evalData post (evalData pre d)) k' := by
      intro k' hk'
      have hchain : evalData (f :: post) (evalData pre d) =
          evalData post (stepData (evalData pre d) f) := rfl
      rw [hchain]
      refine evalData_agree post (stepData (evalData pre d) f)
        (evalData pre d) bad hcl ?_ k' hk'
      intro k'' hk''
      by_cases hf : f.type = "computed" ∧ f.formula.isSome
      · obtain ⟨hf1, hf2⟩ := hf
        obtain ⟨e, he⟩ := Option.isSome_iff_exists.mp hf2
        rw [stepData_of_computed _ f e hf1 he]
        have hne : f.name ≠ k'' := fun hkk => hk'' (hkk ▸ hfbad)
        exact lookupEnv_updateEnv_ne _ f.name k'' _ hne
      · rw [stepData_of_skip _ f hf]
    exact hfstep k hk

theorem c5_witness :
    (lookupEnv (evalPass ([] ++ (⟨"a", "computed", some (.ident "c")⟩ : SchemaField) :: []) [])
        "a" = some (.str ("ERROR: " ++ ("c" ++ " is not defined")))) ∧
    (lookupEnv (evalPass ([] ++ (⟨"a", "computed", some (.ident "c")⟩ : SchemaField) ::
        [⟨"b", "computed", some (.num 5)⟩]) []) "b" =
      lookupEnv (evalPass ([] ++ [⟨"b", "computed", some (.num 5)⟩]) []) "b") := by
  constructor
  · exact c5_unknown_identifier_isolated_failure.1 [] []
      ⟨"a", "computed", some (.ident "c")⟩ [] (.ident "c") "c" rfl rfl
      (by decide) (by decide) (by decide) (by decide)
  · exact c5_unknown_identifier_isolated_failure.2 [] []
      ⟨"a", "computed", some (.ident "c")⟩ [⟨"b", "computed", some (.num 5)⟩]
      ["a"] (by decide) (by decide) "b" (by decide)

/-- C6: evaluation is deterministic and stateless — the pass is a pure
function of the schema and the field-value map alone (in the embedding it
is a total function with no other inputs), so two calls on identical
inputs return identical results, data payload and error banner alike. -/
theorem c6_deterministic (s1 s2 : List SchemaField) (d1 d2 : Env)
    (hs : s1 = s2) (hd : d1 = d2) :
    evaluateComputedFields s1 d1 = evaluateComputedFields s2 d2 := by
  rw [hs, hd]

theorem c6_witness :
    evaluateComputedFields [⟨"t", "computed", some (.num 7)⟩] [("u", .num 1)] =
    evaluateComputedFields [⟨"t", "computed", some (.num 7)⟩] [("u", .num 1)] :=
  c6_deterministic [⟨"t", "computed", some (.num 7)⟩]
    [⟨"t", "computed", some (.num 7)⟩] [("u", .num 1)] [("u", .num 1)] rfl rfl

/-- C7: when a computed field's formula evaluation throws with message
`m` at its turn, the value stored for that field in the final entity data
payload is exactly the string `ERROR: ` followed by `m` (provided no
later computed field reuses the same name and overwrites the entry). -/
theorem c7_error_string_payload (d : Env) (pre : List SchemaField)
    (f : SchemaField) (post : List SchemaField) (e : Expr) (m : String)
    (h1 : f.type = "computed") (h2 : f.formula = some e)
    (herr : evalExpr (evalData pre d) e = .error m)
    (hpost : f.name ∉ computedNames post) :
    lookupEnv (evalPass (pre ++ f :: post) d) f.name =
      some (.str ("ERROR: " ++ m)) := by
  rw [evalPass_eq_evalData]
  exact lookupEnv_evalData_middle_error d pre f post e m h1 h2 herr hpost

theorem c7_witness :
    lookupEnv (evalPass ([] ++ (⟨"a", "computed", some (.ident "c")⟩ : SchemaField) :: []) [])
      "a" = some (.str ("ERROR: " ++ "c is not defined")) :=
  c7_error_string_payload [] [] ⟨"a", "computed", some (.ident "c")⟩ []
    (.ident "c") "c is not defined" rfl rfl (by rfl) (by decide)

/-- C8: on a schema with no computed field the pass is the identity: the
entity data payload equals the input field-value map exactly (no entry
added, removed or changed) and no error is raised. -/
theorem c8_no_computed_fields_identity (s : List SchemaField) (d : Env)
    (h : ∀ f ∈ s, f.type ≠ "computed") :
    evaluateComputedFields s d = (d, none) := by
  unfold evaluateComputedFields
  have hgen : ∀ (b : Option String),
      s.foldl computeFieldStep (d, b) = (d, b) := by
    induction s with
    | nil => intro b; rfl
    | cons f rest ih =>
      intro b
      have hf : f.type ≠ "computed" := h f (List.mem_cons_self f rest)
      have hstep : computeFieldStep (d, b) f = (d, b) := by
        unfold computeFieldStep
        simp [hf]
      rw [List.foldl_cons, hstep]
      exact ih (fun g hg => h g (List.mem_cons_of_mem f hg)) b
  exact hgen none

theorem c8_witness :
    evaluateComputedFields
      [⟨"n", "number", none⟩, ⟨"s", "string", none⟩] [("n", .num 3)] =
      ([("n", .num 3)], none) :=
  c8_no_computed_fields_identity
    [⟨"n", "number", none⟩, ⟨"s", "string", none⟩] [("n", .num 3)]
    (by decide)

/-- C9: every schema entry built by the `cleanFields` map of
`CreateTemplateModal.handleSubmit` carries a `formula` property exactly
when its type is `computed`, and carries an `options` property only when
its type is `select` or `multiselect`. -/
theorem c9_clean_schema_invariant (fs : List RawField) (g : CleanField)
    (hg : g ∈ cleanFields fs) :
    (g.formula.isSome ↔ g.type = "computed") ∧
    (g.options.isSome → g.type = "select" ∨ g.type = "multiselect") := by
  obtain ⟨f, _, rfl⟩ := List.mem_map.mp hg
  unfold cleanField
  constructor
  · by_cases h : f.type = "computed" <;> simp [h]
  · by_cases h : f.type = "select" ∨ f.type = "multiselect" <;> simp [h]

theorem c9_witness :
    ((cleanField ⟨"hp", "computed", "", some "1+1"⟩).formula.isSome ↔
      (cleanField ⟨"hp", "computed", "", some "1+1"⟩).type = "computed") ∧
    ((cleanField ⟨"hp", "computed", "", some "1+1"⟩).options.isSome →
      (cleanField ⟨"hp", "computed", "", some "1+1"⟩).type = "select" ∨
      (cleanField ⟨"hp", "computed", "", some "1+1"⟩).type = "multiselect") :=
  c9_clean_schema_invariant [⟨"hp", "computed", "", some "1+1"⟩]
    (cleanField ⟨"hp", "computed", "", some "1+1"⟩) (by simp [cleanFields])

/-- C10: the pass never touches non-computed entries — for any name that
is not a computed-with-formula field of the schema, the final payload
holds exactly the input value (present or absent alike). Stated with the
claim's unique-field-names hypothesis, though the property needs only
that the name is not a computed field's. -/
theorem c10_non_computed_entries_preserved (s : List SchemaField) (d : Env)
    (k : String) (_hnd : (s.map SchemaField.name).Nodup)
    (h : k ∉ computedNames s) :
    lookupEnv (evalPass s d) k = lookupEnv d k := by
  rw [evalPass_eq_evalData]
  exact lookupEnv_evalData_frame s d k h

theorem c10_witness :
    lookupEnv (evalPass
      [⟨"n", "number", none⟩, ⟨"c", "computed", some (.ident "n")⟩]
      [("n", .num 4)]) "n" = lookupEnv [("n", .num 4)] "n" :=
  c10_non_computed_entries_preserved
    [⟨"n", "number", none⟩, ⟨"c", "computed", some (.ident "n")⟩]
    [("n", .num 4)] "n" (by decide) (by decide)

/-- Sanity example from the spec's testable properties: for a computed
field `total = a + b` with values `a = 2`, `b = 3`, the payload gains
`total = 5`. -/
example :
    evalPass [⟨"total", "computed", some (.add (.ident "a") (.ident "b"))⟩]
      [("a", .num 2), ("b", .num 3)] =
    [("a", .num 2), ("b", .num 3), ("total", .num 5)] := by decide
